import Mathlib

/-!
Verification of the NimbusApp weather-station viewer core: the data-access
layer (`getLatestReading`, `getAllReadings`, `calculateStats` from
`src/services/firebaseService.ts`) and the analytics engine
(`calculateMovingAverage`, `calculateTrend`, `getTrendInfo` from
`src/app/(tabs)/charts.tsx`).

Modelling conventions:
- JavaScript numbers are modelled as rationals (ℚ); the algorithms use only
  field arithmetic, so the exact-arithmetic statements of the spec are
  captured faithfully.
- A station collection is a list of documents (`Doc`), each a key/`Reading`
  pair, given in the descending-by-timestamp order the store serves for the
  `orderBy desc` queries; a `limit k` query is `List.take k` of that list.
- A store answer is `Except Unit (List Doc)`: `.error` models a transport
  failure of `getDocs`, `.ok` a snapshot.
-/

namespace NimbusApp

/-- One sensor sample, as in the `Reading` type of `firebaseService.ts`. -/
structure Reading where
  temperatura : ℚ
  humidade : ℚ
  particulas : ℚ
  timestamp : ℤ
deriving DecidableEq, Repr

/-- A Firestore document of a station collection: key plus reading payload. -/
structure Doc where
  id : String
  data : Reading
deriving DecidableEq, Repr

/-- The reserved non-data key used by the source (the string "metadados"). -/
def reservedKey : String := "metadados"

/-- Embedding of `getLatestReading` (firebaseService.ts lines 60-97): query the
top-1 document by descending timestamp; if it is the reserved metadata record,
re-query the top 2 and return the first non-reserved one; `none` when the
snapshot is empty, when no non-reserved document is found, or on transport
error. -/
def getLatestReading (store : Except Unit (List Doc)) : Option Reading :=
  match store with
  | .error _ => none
  | .ok docs =>
    match docs.take 1 with
    | [] => none
    | d :: _ =>
      if d.id = reservedKey then
        ((docs.take 2).find? (fun x => x.id != reservedKey)).map (fun x => x.data)
      else some d.data

/-- Embedding of `getAllReadings` (firebaseService.ts lines 132-160): query the
`maxCount` most recent documents (descending by timestamp), drop the reserved
metadata record, collect the payloads, and reverse to chronological order;
empty list on transport error. -/
def getAllReadings (store : Except Unit (List Doc)) (maxCount : Nat) : List Reading :=
  match store with
  | .error _ => []
  | .ok docs =>
    let snapshot := docs.take maxCount
    ((snapshot.filter (fun d => d.id != reservedKey)).map (fun d => d.data)).reverse

/-- Model of the JS spread `Math.min` over a non-empty list; the `[]` case is a
total-function default, unreachable in `calculateStats` (which guards on
emptiness). -/
def listMin : List ℚ → ℚ
  | [] => 0
  | h :: t => t.foldl min h

/-- Model of the JS spread `Math.max` over a non-empty list; the `[]` case is a
total-function default, unreachable in `calculateStats`. -/
def listMax : List ℚ → ℚ
  | [] => 0
  | h :: t => t.foldl max h

/-- The record returned by `calculateStats`: averages for the three metrics,
min/max for temperature and humidity (the source computes no particulate
min/max). -/
structure Stats where
  avgTemp : ℚ
  avgHumidity : ℚ
  avgParticulas : ℚ
  minTemp : ℚ
  maxTemp : ℚ
  minHumidity : ℚ
  maxHumidity : ℚ
deriving DecidableEq, Repr

/-- Embedding of `calculateStats` (firebaseService.ts lines 163-189). -/
def calculateStats (readings : List Reading) : Stats :=
  if readings.length = 0 then
    ⟨0, 0, 0, 0, 0, 0, 0⟩
  else
    let temps := readings.map (fun r => r.temperatura)
    let humidities := readings.map (fun r => r.humidade)
    let particulas := readings.map (fun r => r.particulas)
    { avgTemp := temps.sum / (temps.length : ℚ)
      avgHumidity := humidities.sum / (humidities.length : ℚ)
      avgParticulas := particulas.sum / (particulas.length : ℚ)
      minTemp := listMin temps
      maxTemp := listMax temps
      minHumidity := listMin humidities
      maxHumidity := listMax humidities }

/-- Embedding of `calculateMovingAverage` (charts.tsx lines 23-38).  The JS
index arithmetic `i - windowSize + 1` is done over ℤ and clamped with `toNat`
(it is non-negative whenever the `else` branch is taken, so the clamp never
fires there). -/
def calculateMovingAverage (data : List ℚ) (windowSize : Nat) : List ℚ :=
  if data.length = 0 then []
  else
    (List.range data.length).map (fun i =>
      if i < windowSize - 1 then
        let available := data.take (i + 1)
        available.sum / (available.length : ℚ)
      else
        let window := (data.drop ((i - windowSize + 1 : ℤ)).toNat).take windowSize
        window.sum / (windowSize : ℚ))

/-- The record returned by `calculateTrend`. -/
structure TrendResult where
  slope : ℚ
  trendLine : List ℚ
deriving DecidableEq, Repr

/-- The sum `Σx` of the sample indices `0..n-1`, as accumulated by the loop of
`calculateTrend`. -/
def idxSum (n : Nat) : ℚ := ((List.range n).map (fun (i : ℕ) => (i : ℚ))).sum

/-- The sum `Σx²` of the squared sample indices `0..n-1` (`x2Sum += i * i`). -/
def idx2Sum (n : Nat) : ℚ := ((List.range n).map (fun (i : ℕ) => (i : ℚ) * (i : ℚ))).sum

/-- The sum `Σxy` with `x` the index and `y = data[i]` (`xySum += i * data[i]`). -/
def idxySum (data : List ℚ) : ℚ :=
  ((List.range data.length).map (fun (i : ℕ) => (i : ℚ) * data.getD i 0)).sum

/-- The denominator `n * Σx² − (Σx)²` of the least-squares slope, as a function
of the sample count `n`. -/
def idxDenominator (n : Nat) : ℚ := (n : ℚ) * idx2Sum n - idxSum n * idxSum n

/-- Embedding of `calculateTrend` (charts.tsx lines 41-63): ordinary
least-squares fit of `data[i]` against the index `i`, with a zero-slope
fallback when the denominator vanishes.  The loop accumulators are the
closed-form sums `idxSum`, `data.sum`, `idxySum`, `idx2Sum`. -/
def calculateTrend (data : List ℚ) : TrendResult :=
  if data.length = 0 then ⟨0, []⟩
  else
    let n : ℚ := data.length
    let xSum := idxSum data.length
    let ySum := data.sum
    let xySum := idxySum data
    let x2Sum := idx2Sum data.length
    let denominator := n * x2Sum - xSum * xSum
    let slope := if denominator ≠ 0 then (n * xySum - xSum * ySum) / denominator else 0
    let intercept := (ySum - slope * xSum) / n
    ⟨slope, (List.range data.length).map (fun (i : ℕ) => slope * (i : ℚ) + intercept)⟩

/-- The record returned by `getTrendInfo`. -/
structure TrendInfo where
  direction : String
  icon : String
  color : String
  text : String
deriving DecidableEq, Repr

/-- Embedding of `getTrendInfo` (charts.tsx lines 66-77).  The display text
renders the exact rational instead of JS `toFixed(3)` (decimal formatting is
presentation only and not claimed); the classification thresholds `0.01` and
`-0.01` are the exact rationals. -/
def getTrendInfo (slope : ℚ) (unit : String) : TrendInfo :=
  let absSlope := |slope|
  let perReading := toString absSlope
  if slope > 1 / 100 then
    ⟨"rising", "↑", "#ef4444", "+" ++ perReading ++ unit ++ "/reading"⟩
  else if slope < -(1 / 100) then
    ⟨"falling", "↓", "#22c55e", perReading ++ unit ++ "/reading"⟩
  else
    ⟨"stable", "→", "#64748b", "Stable"⟩

/-! Helper lemmas. -/

lemma getD_range_map (f : ℕ → ℚ) (n i : ℕ) (h : i < n) :
    ((List.range n).map f).getD i 0 = f i := by
  rw [List.getD_eq_getElem?_getD, List.getElem?_map, List.getElem?_range h]
  rfl

lemma calculateMovingAverage_length (data : List ℚ) (w : ℕ) :
    (calculateMovingAverage data w).length = data.length := by
  unfold calculateMovingAverage
  split
  · simp_all
  · simp

lemma calculateMovingAverage_getD (data : List ℚ) (w : ℕ) (hw : 1 ≤ w)
    (i : ℕ) (hi : i < data.length) :
    (calculateMovingAverage data w).getD i 0
      = ((data.take (i + 1)).drop (i + 1 - min w (i + 1))).sum / ((min w (i + 1) : ℕ) : ℚ) := by
  have hne : ¬ data.length = 0 := by omega
  unfold calculateMovingAverage
  rw [if_neg hne, getD_range_map _ _ _ hi]
  by_cases hcase : i < w - 1
  · have hmin : min w (i + 1) = i + 1 := by omega
    rw [if_pos hcase, hmin]
    dsimp only
    have h1 : i + 1 - (i + 1) = 0 := by omega
    rw [h1, List.drop_zero, List.length_take_of_le (by omega)]
  · have hmin : min w (i + 1) = w := by omega
    rw [if_neg hcase, hmin]
    dsimp only
    have htn : ((i : ℤ) - (w : ℤ) + 1).toNat = i + 1 - w := by omega
    rw [htn, List.drop_take]
    have h2 : i + 1 - (i + 1 - w) = w := by omega
    rw [h2]

lemma foldl_min_mem (a : ℚ) (t : List ℚ) : t.foldl min a ∈ a :: t := by
  induction t generalizing a with
  | nil => simp
  | cons b t ih =>
    simp only [List.foldl_cons]
    rcases List.mem_cons.mp (ih (min a b)) with h1 | h2
    · rcases min_choice a b with hc | hc <;> rw [h1, hc] <;> simp
    · simp [List.mem_cons.mpr (Or.inr h2)]

lemma foldl_min_le_init (t : List ℚ) : ∀ a, t.foldl min a ≤ a := by
  induction t with
  | nil => intro a; exact le_refl a
  | cons b t ih =>
    intro a
    exact le_trans (ih (min a b)) (min_le_left a b)

lemma foldl_min_le_mem (t : List ℚ) : ∀ a x, x ∈ t → t.foldl min a ≤ x := by
  induction t with
  | nil => intro a x hx; simp at hx
  | cons b t ih =>
    intro a x hx
    rcases List.mem_cons.mp hx with rfl | hx2
    · exact le_trans (foldl_min_le_init t (min a x)) (min_le_right a x)
    · exact ih (min a b) x hx2

lemma foldl_max_mem (a : ℚ) (t : List ℚ) : t.foldl max a ∈ a :: t := by
  induction t generalizing a with
  | nil => simp
  | cons b t ih =>
    simp only [List.foldl_cons]
    rcases List.mem_cons.mp (ih (max a b)) with h1 | h2
    · rcases max_choice a b with hc | hc <;> rw [h1, hc] <;> simp
    · simp [List.mem_cons.mpr (Or.inr h2)]

lemma foldl_max_le_init (t : List ℚ) : ∀ a, a ≤ t.foldl max a := by
  induction t with
  | nil => intro a; exact le_refl a
  | cons b t ih =>
    intro a
    exact le_trans (le_max_left a b) (ih (max a b))

lemma foldl_max_le_mem (t : List ℚ) : ∀ a x, x ∈ t → x ≤ t.foldl max a := by
  induction t with
  | nil => intro a x hx; simp at hx
  | cons b t ih =>
    intro a x hx
    rcases List.mem_cons.mp hx with rfl | hx2
    · exact le_trans (le_max_right a x) (foldl_max_le_init t (max a x))
    · exact ih (max a b) x hx2

lemma listMin_spec (l : List ℚ) (hl : l ≠ []) : listMin l ∈ l ∧ ∀ x ∈ l, listMin l ≤ x := by
  cases l with
  | nil => exact absurd rfl hl
  | cons a t =>
    refine ⟨foldl_min_mem a t, fun x hx => ?_⟩
    rcases List.mem_cons.mp hx with rfl | hx2
    · exact foldl_min_le_init t x
    · exact foldl_min_le_mem t a x hx2

lemma listMax_spec (l : List ℚ) (hl : l ≠ []) : listMax l ∈ l ∧ ∀ x ∈ l, x ≤ listMax l := by
  cases l with
  | nil => exact absurd rfl hl
  | cons a t =>
    refine ⟨foldl_max_mem a t, fun x hx => ?_⟩
    rcases List.mem_cons.mp hx with rfl | hx2
    · exact foldl_max_le_init t x
    · exact foldl_max_le_mem t a x hx2

/-! Claim theorems. -/

/-- C3: for every `data` and `windowSize ≥ 1`, `calculateMovingAverage` keeps the
length of `data`, and its entry at index `i` is the arithmetic mean of the last
`min(windowSize, i+1)` entries of `data` ending at `i` (the window, whose length
is exactly `min(windowSize, i+1)`, shrinks at the start — no padding); the empty
input yields the empty sequence, and `movingAverage([1,2,3,4,5], 3) = [1, 1.5,
2, 3, 4]`. -/
theorem movingAverage_window_spec (data : List ℚ) (w : ℕ) (hw : 1 ≤ w) :
    (calculateMovingAverage data w).length = data.length ∧
    (∀ i, i < data.length →
      ((data.take (i + 1)).drop (i + 1 - min w (i + 1))).length = min w (i + 1) ∧
      (calculateMovingAverage data w).getD i 0
        = ((data.take (i + 1)).drop (i + 1 - min w (i + 1))).sum / ((min w (i + 1) : ℕ) : ℚ)) ∧
    calculateMovingAverage [] w = [] ∧
    calculateMovingAverage [1, 2, 3, 4, 5] 3 = [1, 3/2, 2, 3, 4] := by
  refine ⟨calculateMovingAverage_length data w, fun i hi => ⟨?_, calculateMovingAverage_getD data w hw i hi⟩, by simp [calculateMovingAverage], ?_⟩
  · simp only [List.length_drop, List.length_take]
    omega
  · simp [calculateMovingAverage, List.range_succ]
    norm_num

/-- Witness for C3 at `data = [2, 4, 6]`, `windowSize = 3`, index `i = 2`. -/
theorem movingAverage_window_spec_witness :
    ((([2, 4, 6] : List ℚ).take (2 + 1)).drop (2 + 1 - min 3 (2 + 1))).length = min 3 (2 + 1) ∧
    (calculateMovingAverage [2, 4, 6] 3).getD 2 0
      = ((([2, 4, 6] : List ℚ).take (2 + 1)).drop (2 + 1 - min 3 (2 + 1))).sum
        / ((min 3 (2 + 1) : ℕ) : ℚ) :=
  (movingAverage_window_spec [2, 4, 6] 3 (by norm_num)).2.1 2 (by norm_num)

/-- C7: a window size of 1 makes the moving average the identity:
`calculateMovingAverage data 1 = data` for every `data`. -/
theorem movingAverage_window_one_identity (data : List ℚ) :
    calculateMovingAverage data 1 = data := by
  apply List.ext_getElem (calculateMovingAverage_length data 1)
  intro n h1 h2
  have hg := calculateMovingAverage_getD data 1 (le_refl 1) n h2
  have hmin : min 1 (n + 1) = 1 := by omega
  have h3 : (data.take (n + 1)).drop (n + 1 - 1) = [data.get ⟨n, h2⟩] := by
    have h4 : n + 1 - n = 1 := by omega
    rw [Nat.add_sub_cancel, List.drop_take, h4, List.take_one_drop_eq_of_lt_length h2]
  rw [hmin, h3, List.getD_eq_getElem _ _ h1] at hg
  simpa using hg

/-- C5: `getTrendInfo` classifies as rising exactly when `slope > 0.01`, as
falling exactly when `slope < -0.01`, and as stable otherwise; both comparisons
are strict, so the boundary slopes `0.01` and `-0.01` classify as stable. -/
theorem classifyTrend_thresholds (slope : ℚ) (unit : String) :
    ((getTrendInfo slope unit).direction = "rising" ↔ 1 / 100 < slope) ∧
    ((getTrendInfo slope unit).direction = "falling" ↔ slope < -(1 / 100)) ∧
    ((getTrendInfo slope unit).direction = "stable" ↔ (slope ≤ 1 / 100 ∧ -(1 / 100) ≤ slope)) ∧
    (getTrendInfo (1 / 100) unit).direction = "stable" ∧
    (getTrendInfo (-(1 / 100)) unit).direction = "stable" := by
  have hb1 : (getTrendInfo (1 / 100 : ℚ) unit).direction = "stable" := by
    unfold getTrendInfo
    rw [if_neg (by norm_num), if_neg (by norm_num)]
  have hb2 : (getTrendInfo (-(1 / 100) : ℚ) unit).direction = "stable" := by
    unfold getTrendInfo
    rw [if_neg (by norm_num), if_neg (by norm_num)]
  refine ⟨?_, ?_, ?_, hb1, hb2⟩ <;>
  · unfold getTrendInfo
    split_ifs with h1 h2 <;> simp_all <;> try linarith

/-- C9: the direction computed by `getTrendInfo` does not depend on the unit
argument — for any two units the classification of the same slope agrees. -/
theorem classifyTrend_unit_independent (slope : ℚ) (u1 u2 : String) :
    (getTrendInfo slope u1).direction = (getTrendInfo slope u2).direction := by
  unfold getTrendInfo
  split_ifs <;> rfl

/-- C1 counterexample: the claim says `calculateStats` returns the minimum and
maximum of the particulate count, but the source computes no `minParticulas` or
`maxParticulas` field.  These two concrete inputs have identical stat summaries
yet different particulate minima and maxima, so no component of the result can
be the particulate minimum or maximum. -/
theorem calculateStats_counterexample :
    calculateStats [⟨0, 0, 1, 0⟩, ⟨0, 0, 3, 1⟩] = calculateStats [⟨0, 0, 2, 0⟩, ⟨0, 0, 2, 1⟩] ∧
    listMin (([⟨0, 0, 1, 0⟩, ⟨0, 0, 3, 1⟩] : List Reading).map (fun r => r.particulas))
      ≠ listMin (([⟨0, 0, 2, 0⟩, ⟨0, 0, 2, 1⟩] : List Reading).map (fun r => r.particulas)) ∧
    listMax (([⟨0, 0, 1, 0⟩, ⟨0, 0, 3, 1⟩] : List Reading).map (fun r => r.particulas))
      ≠ listMax (([⟨0, 0, 2, 0⟩, ⟨0, 0, 2, 1⟩] : List Reading).map (fun r => r.particulas)) := by
  refine ⟨?_, ?_, ?_⟩
  · norm_num [calculateStats, listMin, listMax]
  · norm_num [listMin, min_def]
  · norm_num [listMax, max_def]

/-- C1 (amended): for every non-empty sequence of readings, `calculateStats`
returns the average of each of the three metrics, and the minimum and maximum
of temperature and humidity only (no particulate min/max is computed); the
empty sequence yields an all-zero summary, and a single reading yields its
values as average of each metric and as min and max of temperature and
humidity. -/
theorem calculateStats_spec (readings : List Reading) (h : readings ≠ []) :
    (calculateStats readings).avgTemp
      = (readings.map (fun r => r.temperatura)).sum / ((readings.length : ℕ) : ℚ) ∧
    (calculateStats readings).avgHumidity
      = (readings.map (fun r => r.humidade)).sum / ((readings.length : ℕ) : ℚ) ∧
    (calculateStats readings).avgParticulas
      = (readings.map (fun r => r.particulas)).sum / ((readings.length : ℕ) : ℚ) ∧
    ((calculateStats readings).minTemp ∈ readings.map (fun r => r.temperatura) ∧
      ∀ x ∈ readings.map (fun r => r.temperatura), (calculateStats readings).minTemp ≤ x) ∧
    ((calculateStats readings).maxTemp ∈ readings.map (fun r => r.temperatura) ∧
      ∀ x ∈ readings.map (fun r => r.temperatura), x ≤ (calculateStats readings).maxTemp) ∧
    ((calculateStats readings).minHumidity ∈ readings.map (fun r => r.humidade) ∧
      ∀ x ∈ readings.map (fun r => r.humidade), (calculateStats readings).minHumidity ≤ x) ∧
    ((calculateStats readings).maxHumidity ∈ readings.map (fun r => r.humidade) ∧
      ∀ x ∈ readings.map (fun r => r.humidade), x ≤ (calculateStats readings).maxHumidity) ∧
    calculateStats [] = ⟨0, 0, 0, 0, 0, 0, 0⟩ ∧
    (∀ r : Reading, calculateStats [r]
      = ⟨r.temperatura, r.humidade, r.particulas,
          r.temperatura, r.temperatura, r.humidade, r.humidade⟩) := by
  have hlen : ¬ readings.length = 0 := fun hh => h (List.length_eq_zero.mp hh)
  have hmt : readings.map (fun r => r.temperatura) ≠ [] := by
    simpa [List.map_eq_nil_iff] using h
  have hmh : readings.map (fun r => r.humidade) ≠ [] := by
    simpa [List.map_eq_nil_iff] using h
  refine ⟨?_, ?_, ?_, ?_, ?_, ?_, ?_, ?_, ?_⟩
  · unfold calculateStats; rw [if_neg hlen]; simp
  · unfold calculateStats; rw [if_neg hlen]; simp
  · unfold calculateStats; rw [if_neg hlen]; simp
  · unfold calculateStats; rw [if_neg hlen]; exact listMin_spec _ hmt
  · unfold calculateStats; rw [if_neg hlen]; exact listMax_spec _ hmt
  · unfold calculateStats; rw [if_neg hlen]; exact listMin_spec _ hmh
  · unfold calculateStats; rw [if_neg hlen]; exact listMax_spec _ hmh
  · simp [calculateStats]
  · intro r; simp [calculateStats, listMin, listMax]

/-- Witness for C1 (amended) at the single reading `⟨1, 2, 3, 4⟩`. -/
theorem calculateStats_spec_witness :
    (calculateStats [⟨1, 2, 3, 4⟩]).avgTemp
      = (([⟨1, 2, 3, 4⟩] : List Reading).map (fun r => r.temperatura)).sum
        / (((([⟨1, 2, 3, 4⟩] : List Reading).length : ℕ)) : ℚ) :=
  (calculateStats_spec [⟨1, 2, 3, 4⟩] (by simp)).1

lemma idxSum_succ (n : ℕ) : idxSum (n + 1) = idxSum n + (n : ℚ) := by
  unfold idxSum
  rw [List.range_succ, List.map_append, List.sum_append]
  simp

lemma idxSum_closed (n : ℕ) : idxSum n = (n : ℚ) * ((n : ℚ) - 1) / 2 := by
  induction n with
  | zero => simp [idxSum]
  | succ n ih =>
    rw [idxSum_succ, ih]
    push_cast
    ring

lemma idx2Sum_succ (n : ℕ) : idx2Sum (n + 1) = idx2Sum n + (n : ℚ) * (n : ℚ) := by
  unfold idx2Sum
  rw [List.range_succ, List.map_append, List.sum_append]
  simp

lemma idx2Sum_closed (n : ℕ) :
    idx2Sum n = (n : ℚ) * ((n : ℚ) - 1) * (2 * (n : ℚ) - 1) / 6 := by
  induction n with
  | zero => simp [idx2Sum]
  | succ n ih =>
    rw [idx2Sum_succ, ih]
    push_cast
    ring

lemma idxDenominator_closed (n : ℕ) :
    idxDenominator n = (n : ℚ) * (n : ℚ) * ((n : ℚ) - 1) * ((n : ℚ) + 1) / 12 := by
  unfold idxDenominator
  rw [idxSum_closed, idx2Sum_closed]
  ring

lemma idxDenominator_eq_zero_iff (n : ℕ) : idxDenominator n = 0 ↔ n ≤ 1 := by
  rw [idxDenominator_closed]
  constructor
  · intro h
    by_contra hn
    push_neg at hn
    have h2 : (2 : ℚ) ≤ (n : ℚ) := by exact_mod_cast hn
    have h0 : (0 : ℚ) < (n : ℚ) := by linarith
    have hm : (0 : ℚ) < (n : ℚ) - 1 := by linarith
    have hp1 : (0 : ℚ) < (n : ℚ) + 1 := by linarith
    have hpos : (0 : ℚ) < (n : ℚ) * (n : ℚ) * ((n : ℚ) - 1) * ((n : ℚ) + 1) / 12 :=
      div_pos (mul_pos (mul_pos (mul_pos h0 h0) hm) hp1) (by norm_num)
    linarith
  · intro h
    interval_cases n <;> norm_num

/-- C4: `calculateTrend` is the ordinary least-squares fit of the values
against the indices `0..n-1` via the closed-form sums `Σx, Σy, Σxy, Σx²`: its
slope is the guarded quotient of `n·Σxy − Σx·Σy` by `n·Σx² − (Σx)²`, every
trend-line entry at index `i` equals `slope * i + intercept` with
`intercept = (Σy − slope·Σx)/n`, the empty input yields `{slope 0, trendLine
[]}`, `[1,2,3,4,5]` yields slope 1 with trend line `[1,2,3,4,5]`, and `[5]`
yields slope 0 with trend line `[5]`. -/
theorem linearTrend_ols_spec (data : List ℚ) :
    calculateTrend ([] : List ℚ) = ⟨0, []⟩ ∧
    (calculateTrend data).trendLine.length = data.length ∧
    (data ≠ [] →
      (calculateTrend data).slope
        = (if idxDenominator data.length ≠ 0 then
            ((data.length : ℚ) * idxySum data - idxSum data.length * data.sum)
              / idxDenominator data.length
          else 0) ∧
      (∀ i, i < data.length →
        (calculateTrend data).trendLine.getD i 0
          = (calculateTrend data).slope * (i : ℚ)
            + (data.sum - (calculateTrend data).slope * idxSum data.length)
              / ((data.length : ℕ) : ℚ))) ∧
    calculateTrend [1, 2, 3, 4, 5] = ⟨1, [1, 2, 3, 4, 5]⟩ ∧
    calculateTrend [5] = ⟨0, [5]⟩ := by
  refine ⟨by simp [calculateTrend], ?_, ?_, ?_, ?_⟩
  · unfold calculateTrend
    split
    · simp_all
    · simp
  · intro h
    have hlen : ¬ data.length = 0 := fun hh => h (List.length_eq_zero.mp hh)
    constructor
    · unfold calculateTrend
      rw [if_neg hlen]
      rfl
    · intro i hi
      unfold calculateTrend
      rw [if_neg hlen]
      dsimp only
      rw [getD_range_map _ _ _ hi]
  · simp [calculateTrend, idxSum, idxySum, idx2Sum, List.range_succ]
    norm_num
  · simp [calculateTrend, idxSum, idxySum, idx2Sum, List.range_succ]

/-- Witness for C4 at `data = [1, 2, 3, 4, 5]`: the slope is the guarded
least-squares quotient. -/
theorem linearTrend_ols_spec_witness :
    (calculateTrend [1, 2, 3, 4, 5]).slope
      = (if idxDenominator ([1, 2, 3, 4, 5] : List ℚ).length ≠ 0 then
          ((([1, 2, 3, 4, 5] : List ℚ).length : ℚ) * idxySum [1, 2, 3, 4, 5]
              - idxSum ([1, 2, 3, 4, 5] : List ℚ).length * ([1, 2, 3, 4, 5] : List ℚ).sum)
            / idxDenominator ([1, 2, 3, 4, 5] : List ℚ).length
        else 0) :=
  ((linearTrend_ols_spec [1, 2, 3, 4, 5]).2.2.1 (by simp)).1

/-- C6: the least-squares denominator `n·Σx² − (Σx)²` over the indices
`0..n-1` vanishes exactly when `n ≤ 1`; hence for every input of length at
least 2 the division branch of `calculateTrend` is taken (the slope is the
quotient, not the zero fallback). -/
theorem linearTrend_denominator_nonzero (n : ℕ) (data : List ℚ) (h2 : 2 ≤ data.length) :
    (idxDenominator n = 0 ↔ n ≤ 1) ∧
    (calculateTrend data).slope
      = ((data.length : ℚ) * idxySum data - idxSum data.length * data.sum)
        / idxDenominator data.length := by
  refine ⟨idxDenominator_eq_zero_iff n, ?_⟩
  have hlen : ¬ data.length = 0 := by omega
  have hden : idxDenominator data.length ≠ 0 := by
    rw [ne_eq, idxDenominator_eq_zero_iff]
    omega
  have hchar : (calculateTrend data).slope
      = (if idxDenominator data.length ≠ 0 then
          ((data.length : ℚ) * idxySum data - idxSum data.length * data.sum)
            / idxDenominator data.length
        else 0) := by
    unfold calculateTrend
    rw [if_neg hlen]
    rfl
  rw [hchar, if_pos hden]

/-- Witness for C6 at `n = 5` and `data = [1, 2, 3, 4, 5]`. -/
theorem linearTrend_denominator_nonzero_witness :
    (idxDenominator 5 = 0 ↔ 5 ≤ 1) ∧
    (calculateTrend [1, 2, 3, 4, 5]).slope
      = ((([1, 2, 3, 4, 5] : List ℚ).length : ℚ) * idxySum [1, 2, 3, 4, 5]
          - idxSum ([1, 2, 3, 4, 5] : List ℚ).length * ([1, 2, 3, 4, 5] : List ℚ).sum)
        / idxDenominator ([1, 2, 3, 4, 5] : List ℚ).length :=
  linearTrend_denominator_nonzero 5 [1, 2, 3, 4, 5] (by norm_num)

lemma getLatestReading_nil : getLatestReading (.ok []) = none := rfl

lemma getLatestReading_cons (d : Doc) (rest : List Doc) :
    getLatestReading (.ok (d :: rest))
      = if d.id = reservedKey then
          (((d :: rest).take 2).find? (fun x => x.id != reservedKey)).map (fun x => x.data)
        else some d.data := rfl

/-- C2: on a store answer, `getAllReadings` returns exactly the non-reserved
documents of the `maxCount`-limited descending snapshot, filtered and reversed;
when the snapshot is descending by timestamp the result is ascending
(chronological, oldest first); a transport error yields the empty sequence. -/
theorem allReadings_spec (docs : List Doc) (maxCount : ℕ)
    (hsorted : List.Sorted (fun a b : ℤ => b ≤ a)
      ((docs.take maxCount).map (fun d => d.data.timestamp))) :
    getAllReadings (.ok docs) maxCount
      = (((docs.take maxCount).filter (fun d => d.id != reservedKey)).map
          (fun d => d.data)).reverse ∧
    List.Sorted (fun a b : ℤ => a ≤ b)
      ((getAllReadings (.ok docs) maxCount).map (fun r => r.timestamp)) ∧
    getAllReadings (.error ()) maxCount = [] := by
  refine ⟨rfl, ?_, rfl⟩
  have h1 : List.Pairwise (fun d e : Doc => e.data.timestamp ≤ d.data.timestamp)
      (docs.take maxCount) := List.pairwise_map.mp hsorted
  have h2 := h1.filter (fun d => d.id != reservedKey)
  have h3 : List.Pairwise (fun a b : ℤ => b ≤ a)
      ((((docs.take maxCount).filter (fun d => d.id != reservedKey)).map
        (fun d => d.data)).map (fun r => r.timestamp)) := by
    rw [List.map_map]
    exact List.pairwise_map.mpr h2
  show List.Pairwise _ _
  unfold getAllReadings
  dsimp only
  rw [List.map_reverse]
  exact List.pairwise_reverse.mpr h3

/-- Five mock readings plus the reserved metadata record, in the descending
timestamp order the store serves. -/
def mockDocs : List Doc :=
  [⟨"r5", ⟨1, 1, 1, 50⟩⟩, ⟨"metadados", ⟨0, 0, 0, 45⟩⟩, ⟨"r4", ⟨1, 1, 1, 40⟩⟩,
    ⟨"r3", ⟨1, 1, 1, 30⟩⟩, ⟨"r2", ⟨1, 1, 1, 20⟩⟩, ⟨"r1", ⟨1, 1, 1, 10⟩⟩]

/-- Witness for C2 on the five mock readings with the reserved record mixed in. -/
theorem allReadings_spec_witness :
    getAllReadings (.ok mockDocs) 10
      = (((mockDocs.take 10).filter (fun d => d.id != reservedKey)).map
          (fun d => d.data)).reverse ∧
    List.Sorted (fun a b : ℤ => a ≤ b)
      ((getAllReadings (.ok mockDocs) 10).map (fun r => r.timestamp)) ∧
    getAllReadings (.error ()) 10 = [] :=
  allReadings_spec mockDocs 10 (by decide)

/-- C8: `getLatestReading` never returns the reserved metadata record — any
returned reading is the payload of a non-reserved document of the store; when
the top document is reserved it re-queries the top 2 and returns the first
non-reserved document found there; it returns `none` when no non-reserved
document exists and on transport error. -/
theorem latestReading_skips_reserved (docs : List Doc) :
    (∀ r, getLatestReading (.ok docs) = some r →
      ∃ d, d ∈ docs ∧ d.id ≠ reservedKey ∧ r = d.data) ∧
    ((∀ d, d ∈ docs → d.id = reservedKey) → getLatestReading (.ok docs) = none) ∧
    (∀ d rest, docs = d :: rest → d.id = reservedKey →
      getLatestReading (.ok docs)
        = ((docs.take 2).find? (fun x => x.id != reservedKey)).map (fun x => x.data)) ∧
    getLatestReading (.error ()) = none := by
  refine ⟨?_, ?_, ?_, rfl⟩
  · intro r hr
    cases docs with
    | nil => rw [getLatestReading_nil] at hr; exact absurd hr (by simp)
    | cons d rest =>
      rw [getLatestReading_cons] at hr
      by_cases hd : d.id = reservedKey
      · rw [if_pos hd] at hr
        obtain ⟨x, hfx, hxr⟩ := Option.map_eq_some'.mp hr
        refine ⟨x, List.take_subset 2 _ (List.mem_of_find?_eq_some hfx), ?_, hxr.symm⟩
        simpa using List.find?_some hfx
      · rw [if_neg hd] at hr
        exact ⟨d, List.mem_cons_self d rest, hd, (Option.some.inj hr).symm⟩
  · intro hall
    cases docs with
    | nil => exact getLatestReading_nil
    | cons d rest =>
      rw [getLatestReading_cons, if_pos (hall d (List.mem_cons_self d rest))]
      rw [List.find?_eq_none.mpr ?_]
      · rfl
      · intro x hx
        simpa using hall x (List.take_subset 2 _ hx)
  · intro d rest hdocs hd
    subst hdocs
    rw [getLatestReading_cons, if_pos hd]

/-- Witness for C8: with the reserved record sorting first, the returned
reading is the payload of a non-reserved document. -/
theorem latestReading_skips_reserved_witness :
    ∃ d, d ∈ ([⟨"metadados", ⟨0, 0, 0, 99⟩⟩, ⟨"r1", ⟨1, 2, 3, 50⟩⟩] : List Doc) ∧
      d.id ≠ reservedKey ∧ (⟨1, 2, 3, 50⟩ : Reading) = d.data :=
  (latestReading_skips_reserved [⟨"metadados", ⟨0, 0, 0, 99⟩⟩, ⟨"r1", ⟨1, 2, 3, 50⟩⟩]).1
    ⟨1, 2, 3, 50⟩ rfl

/-- A station with three true readings behind the reserved record: the limit 3
is consumed by the reserved record, so only two readings come back. -/
def exampleDocs : List Doc :=
  [⟨"metadados", ⟨0, 0, 0, 99⟩⟩, ⟨"a", ⟨1, 1, 1, 40⟩⟩, ⟨"b", ⟨1, 1, 1, 30⟩⟩,
    ⟨"c", ⟨1, 1, 1, 20⟩⟩]

/-- C10: the limit is applied before the reserved-record filter, so whenever
the reserved record is among the `maxCount` most recent documents the result
has at most `maxCount - 1` readings; concretely, a station holding 3 true
readings answers a `maxCount = 3` request with only 2. -/
theorem allReadings_limit_before_filter (docs : List Doc) (maxCount : ℕ)
    (h : ∃ d, d ∈ docs.take maxCount ∧ d.id = reservedKey) :
    (getAllReadings (.ok docs) maxCount).length ≤ maxCount - 1 ∧
    3 ≤ (exampleDocs.filter (fun d => d.id != reservedKey)).length ∧
    (getAllReadings (.ok exampleDocs) 3).length = 2 := by
  refine ⟨?_, by decide, by decide⟩
  obtain ⟨d, hmem, hid⟩ := h
  unfold getAllReadings
  dsimp only
  rw [List.length_reverse, List.length_map]
  have hlt : ((docs.take maxCount).filter (fun x => x.id != reservedKey)).length
      < (docs.take maxCount).length :=
    List.length_filter_lt_length_iff_exists.mpr ⟨d, hmem, by simp [hid]⟩
  have hle : (docs.take maxCount).length ≤ maxCount := by
    rw [List.length_take]
    omega
  omega

/-- Witness for C10 at `exampleDocs` with `maxCount = 3`. -/
theorem allReadings_limit_before_filter_witness :
    (getAllReadings (.ok exampleDocs) 3).length ≤ 3 - 1 ∧
    3 ≤ (exampleDocs.filter (fun d => d.id != reservedKey)).length ∧
    (getAllReadings (.ok exampleDocs) 3).length = 2 :=
  allReadings_limit_before_filter exampleDocs 3
    ⟨⟨"metadados", ⟨0, 0, 0, 99⟩⟩, by decide, rfl⟩

end NimbusApp
